import Mathlib

/-!
# Verification of `nexis-clicker`

A shallow embedding of the core logic of the `nexis-clicker` repository
(`src/nexis_clicker/__main__.py`, with the legacy variant
`src/nexis_scraper/__main__.py` embedded where its behaviour differs).
Strings are modelled as `List Char`; Python's fallible operations
(tuple-unpacking of `str.split`, membership tests on `None`) are modelled
with `Option`/`Except`.  All definitions are executable.
-/

namespace NexisClicker

/-! ## Basic character and string helpers -/

/-- The whitespace characters recognised by Python's `str.strip()` and by the
regex class `\s` (restricted to ASCII, which is all that occurs here). -/
def pySpace (c : Char) : Bool :=
  c = ' ' ∨ c = '\t' ∨ c = '\n' ∨ c = '\r' ∨ c = Char.ofNat 11 ∨ c = Char.ofNat 12

/-- Python `str.strip()`: drop whitespace from both ends. -/
def stripChars (s : List Char) : List Char :=
  ((s.dropWhile pySpace).reverse.dropWhile pySpace).reverse

/-- Python `s.split(sep, 1)` restricted to the case where the separator occurs:
split at the first occurrence of `sep`, returning the parts before and after.
`none` models the `ValueError` raised by unpacking a 1-element list. -/
def splitOnce (sep : List Char) : List Char → Option (List Char × List Char)
  | [] => if sep.isEmpty then some ([], []) else none
  | c :: rest =>
    if sep.isPrefixOf (c :: rest) then some ([], (c :: rest).drop sep.length)
    else
      match splitOnce sep rest with
      | some (a, b) => some (c :: a, b)
      | none => none

/-- Python `s.rsplit(sep, 1)` when the separator occurs: split at the *last*
occurrence of `sep`. -/
def rsplitOnce (sep : List Char) : List Char → Option (List Char × List Char)
  | [] => none
  | c :: rest =>
    match rsplitOnce sep rest with
    | some (a, b) => some (c :: a, b)
    | none =>
      if sep.isPrefixOf (c :: rest) then some ([], (c :: rest).drop sep.length)
      else none

/-- Python's substring test `sep in s`. -/
def containsSub (sep s : List Char) : Bool :=
  (splitOnce sep s).isSome

/-! ## Decimal representation (Python `f"{n}"`) -/

/-- The character for a single decimal digit. -/
def dchar (d : Nat) : Char := Char.ofNat (48 + d)

/-- Decimal digits of `n`, least significant first, computed with explicit
fuel so that the definition reduces in the kernel. -/
def digitsFuel : Nat → Nat → List Nat
  | 0, _ => []
  | fuel + 1, n => if n = 0 then [] else n % 10 :: digitsFuel fuel (n / 10)

/-- Decimal digits of `n`, least significant first. -/
def decDigits (n : Nat) : List Nat := digitsFuel n n

/-- Decimal digits of `n` as characters, least significant first. -/
def revDec (n : Nat) : List Char := (decDigits n).map dchar

/-- Decimal representation of a positive natural (most significant first). -/
def decCharsAux (n : Nat) : List Char := (revDec n).reverse

/-- Python `f"{n}"`: standard decimal representation. -/
def decChars (n : Nat) : List Char := if n = 0 then ['0'] else decCharsAux n

/-! ## Dates

The repository delegates natural-language date parsing to the external
`dateparser` library and formatting to `datetime.strftime("%Y-%m-%d")`.
`parseDateEn` models the library's behaviour on the two input shapes that
actually occur in this program: ISO `YYYY-MM-DD` strings (re-parsed by
`process_download`) and English dates such as `Jan 5, 2021` (the date line of
an article); anything else parses to `none`, modelling `dateparser.parse`
returning `None`. -/

structure YMD where
  y : Nat
  m : Nat
  d : Nat
deriving DecidableEq, Repr

/-- Month-name table (full names and three-letter abbreviations). -/
def monthTable : List (List Char × Nat) :=
  [("January".toList, 1), ("February".toList, 2), ("March".toList, 3),
   ("April".toList, 4), ("May".toList, 5), ("June".toList, 6),
   ("July".toList, 7), ("August".toList, 8), ("September".toList, 9),
   ("October".toList, 10), ("November".toList, 11), ("December".toList, 12),
   ("Jan".toList, 1), ("Feb".toList, 2), ("Mar".toList, 3), ("Apr".toList, 4),
   ("Jun".toList, 6), ("Jul".toList, 7), ("Aug".toList, 8), ("Sep".toList, 9),
   ("Oct".toList, 10), ("Nov".toList, 11), ("Dec".toList, 12)]

def monthLookup : List (List Char × Nat) → List Char → Option Nat
  | [], _ => none
  | (k, v) :: rest, s => if k = s then some v else monthLookup rest s

def digitVal (c : Char) : Option Nat :=
  if '0' ≤ c ∧ c ≤ '9' then some (c.toNat - 48) else none

def natOfDigits (cs : List Char) : Option Nat :=
  if cs.isEmpty then none
  else
    cs.foldl
      (fun acc c =>
        match acc, digitVal c with
        | some a, some d => some (a * 10 + d)
        | _, _ => none)
      (some 0)

/-- Parse an ISO `YYYY-MM-DD` string. -/
def parseIso (s : List Char) : Option YMD :=
  match splitOnce ['-'] s with
  | none => none
  | some (ys, rest) =>
    match splitOnce ['-'] rest with
    | none => none
    | some (ms, ds) =>
      match natOfDigits ys, natOfDigits ms, natOfDigits ds with
      | some y, some m, some d =>
        if 1 ≤ m ∧ m ≤ 12 ∧ 1 ≤ d ∧ d ≤ 31 then some ⟨y, m, d⟩ else none
      | _, _, _ => none

/-- Parse an English date of the shape `Jan 5, 2021`. -/
def parseEnglish (s : List Char) : Option YMD :=
  match splitOnce [' '] s with
  | none => none
  | some (monTok, rest) =>
    match splitOnce (", ".toList) rest with
    | none => none
    | some (dayTok, yearTok) =>
      match monthLookup monthTable monTok, natOfDigits dayTok, natOfDigits yearTok with
      | some m, some d, some y => if 1 ≤ d ∧ d ≤ 31 then some ⟨y, m, d⟩ else none
      | _, _, _ => none

/-- Models `dateparser.parse(s, languages=["en"])` for the date formats this
program produces or consumes; unparseable input gives `none`. -/
def parseDateEn (s : List Char) : Option YMD :=
  match parseIso s with
  | some d => some d
  | none => parseEnglish s

/-- Left-pad with zeros to width `k`. -/
def padZ (k : Nat) (cs : List Char) : List Char :=
  List.replicate (k - cs.length) '0' ++ cs

/-- `datetime.strftime(d, "%Y-%m-%d")`. -/
def formatDate (x : YMD) : List Char :=
  padZ 4 (decChars x.y) ++ ['-'] ++ padZ 2 (decChars x.m) ++ ['-'] ++ padZ 2 (decChars x.d)

/-! ## The Dateline regular expression

`re.findall(r"Dateline:\s?(.+),[^,]+\n", rest)[0]` (first match's group) is
modelled by a direct backtracking matcher specialised to this one pattern:
literal `Dateline:`, optional whitespace (greedy), a greedy non-newline group
`(.+)`, a comma, one or more non-comma characters, then a literal newline. -/

/-- Can `[^,]+\n` match at the start of `t`?  It can iff some nonempty prefix
of comma-free characters is followed by a literal newline, i.e. iff the maximal
comma-free prefix of `t` contains a `'\n'` at an index ≥ 1. -/
def tailOk (t : List Char) : Bool :=
  ((t.takeWhile (fun c => c ≠ ',')).drop 1).contains '\n'

/-- Greedy matching of `(.+),[^,]+\n` at the start of `s`: try group lengths
`k, k-1, …, 1` and return the first (longest) group that is followed by a
comma and a successful `[^,]+\n` match. -/
def tryGroup (s : List Char) : Nat → Option (List Char)
  | 0 => none
  | k + 1 =>
    if s[k + 1]? = some ',' ∧ tailOk (s.drop (k + 2)) then some (s.take (k + 1))
    else tryGroup s k

/-- Match `(.+),[^,]+\n` at the start of `s` (the group may not contain a
newline, so its length is at most the newline-free prefix of `s`). -/
def groupFrom (s : List Char) : Option (List Char) :=
  tryGroup s (s.takeWhile (fun c => c ≠ '\n')).length

/-- Match `\s?(.+),[^,]+\n` at the start of `s`: greedily try consuming one
whitespace character first, falling back to consuming none. -/
def matchAfter (s : List Char) : Option (List Char) :=
  match s with
  | [] => none
  | c :: rest =>
    if pySpace c then
      match groupFrom rest with
      | some g => some g
      | none => groupFrom (c :: rest)
    else groupFrom (c :: rest)

def dlMarker : List Char := "Dateline:".toList

/-- Leftmost match of the whole pattern: scan for the literal `Dateline:` and
return the first position's group where the rest of the pattern also matches.
Models `re.findall(...)[0] if found else None`. -/
def findallDateline : List Char → Option (List Char)
  | [] => none
  | c :: rest =>
    if dlMarker.isPrefixOf (c :: rest) then
      match matchAfter ((c :: rest).drop 9) with
      | some g => some g
      | none => findallDateline rest
    else findallDateline rest

/-! ## The record parser (`parse`) -/

/-- The exceptions `parse` can raise: `ValueError` from unpacking a `split`
that found no separator, and `TypeError` from the membership test
`", " in None`. -/
inductive PErr where
  | valueError
  | typeError
deriving DecidableEq, Repr

/-- The record produced by `parse` (a `Munch` in the source). -/
structure DocRecord where
  date : Option (List Char)
  country : Option (List Char)
  location : Option (List Char)
  source : List Char
  title : List Char
  text : List Char
deriving DecidableEq, Repr

def nlSep : List Char := ['\n']
def bodyMarker : List Char := "Body".toList
def graphicMarker : List Char := "Graphic".toList
def loadDateMarker : List Char := "Load-Date".toList
def commaSpace : List Char := ", ".toList

/-- The location step of `nexis_clicker.__main__.parse`:

```
location = location[0] if len(location) > 0 else None
if ", " in location:
    location, country = location.rsplit(", ", 1)
else:
    country = None
```

given a non-`None` regex result, split off the country at the last `", "` when
one occurs.  (`none` would model an unpacking `ValueError`; for this variant
the split is guarded by the membership test and can never fail.) -/
def locSplitClicker (loc0 : List Char) : Option (List Char × Option (List Char)) :=
  if containsSub commaSpace loc0 then
    match rsplitOnce commaSpace loc0 with
    | some (a, b) => some (a, some b)
    | none => none
  else some (loc0, none)

/-- The location step of `nexis_scraper.__main__.parse`:
`location, country = location.split(", ")` — an unbounded split whose
unpacking into two names raises `ValueError` unless `", "` occurs exactly
once. -/
def locSplitScraper (loc0 : List Char) : Option (List Char × Option (List Char)) :=
  if containsSub commaSpace loc0 then
    match splitOnce commaSpace loc0 with
    | some (a, b) => if containsSub commaSpace b then none else some (a, some b)
    | none => none
  else some (loc0, none)

/-- The body extraction of `parse`: split the post-`Body` text at `Graphic`
when present, else at `Load-Date` (an absent `Load-Date` then raises
`ValueError`, modelled by `none`). -/
def bodySplit (r3 : List Char) : Option (List Char × List Char) :=
  if containsSub graphicMarker r3 then splitOnce graphicMarker r3
  else splitOnce loadDateMarker r3

/-- The part of `parse` after the three date-line splits: `dateparser` on the
stripped date line, the `Dateline:` regex (whose `None` result raises
`TypeError` at the `", " in location` test), the location step, the `Body`
split, and the body extraction. -/
def parseTailWith (locSplit : List Char → Option (List Char × Option (List Char)))
    (title feed dateLine rest : List Char) : Except PErr DocRecord :=
  match findallDateline rest with
  | none => .error .typeError
  | some loc0 =>
    match locSplit loc0 with
    | none => .error .valueError
    | some (location, country) =>
      match splitOnce bodyMarker rest with
      | none => .error .valueError
      | some (_, r3) =>
        match bodySplit r3 with
        | none => .error .valueError
        | some (text, _) =>
          .ok { date := (parseDateEn (stripChars dateLine)).map formatDate
                country := country
                location := some location
                source := stripChars feed
                title := stripChars title
                text := stripChars text }

/-- The three `split("\n", 1)` unpackings opening `parse`, followed by the
rest of the function. -/
def parseWith (locSplit : List Char → Option (List Char × Option (List Char)))
    (plaintext : List Char) : Except PErr DocRecord :=
  match splitOnce nlSep plaintext with
  | none => .error .valueError
  | some (title, r1) =>
    match splitOnce nlSep r1 with
    | none => .error .valueError
    | some (feed, r2) =>
      match splitOnce nlSep r2 with
      | none => .error .valueError
      | some (dateLine, rest) => parseTailWith locSplit title feed dateLine rest

/-- `nexis_clicker.__main__.parse`: extract metadata and text from one
normalized plaintext blob. -/
def parse (plaintext : List Char) : Except PErr DocRecord :=
  parseWith locSplitClicker plaintext

/-- `nexis_scraper.__main__.parse`: identical except for the location step. -/
def scraperParse (plaintext : List Char) : Except PErr DocRecord :=
  parseWith locSplitScraper plaintext

/-! ## `process_download`: unpack, parse, drop dateless records, write JSON -/

/-- Python truthiness test `not item.date`: true for `None` and for the empty
string. -/
def dateFalsy : Option (List Char) → Bool
  | none => true
  | some s => s.isEmpty

/-- Result of running `process_download` over the entries of one archive:
the `(date-directory, entry-name)` keys written, the entry names reported as
dropped (`No date for …`), and whether an exception aborted processing. -/
structure PDOut where
  written : List (List Char × List Char)
  reported : List (List Char)
  failed : Bool
deriving DecidableEq, Repr

/-- The per-entry loop of `nexis_clicker.__main__.process_download`: parse the
entry (exceptions abort the loop), skip-and-report entries whose parsed date is
falsy, re-parse the date string and write the record under
`json/{date}/{entryName}.json` otherwise. -/
def process_download : List (List Char × List Char) → PDOut
  | [] => ⟨[], [], false⟩
  | (fn, text) :: rest =>
    match parse text with
    | .error _ => ⟨[], [], true⟩
    | .ok item =>
      if dateFalsy item.date then
        let r := process_download rest
        ⟨r.written, fn :: r.reported, r.failed⟩
      else
        match item.date with
        | none => ⟨[], [], true⟩
        | some d =>
          match parseDateEn d with
          | none => ⟨[], [], true⟩
          | some ymd =>
            let r := process_download rest
            ⟨(formatDate ymd, fn) :: r.written, r.reported, r.failed⟩

/-! ## Window planning -/

/-- Python `range(0, stop, step)` for positive `step`. -/
def pyRange0 (stop step : Nat) : List Nat :=
  (List.range ((stop + step - 1) / step)).map (fun i => i * step)

/-- `nexis_clicker`: `[(month, year) for year in range(start, end) for month
in range(1, 13)]`. -/
def months_and_years (start e : Nat) : List (Nat × Nat) :=
  (List.range' start (e - start)).flatMap
    (fun year => (List.range' 1 12).map (fun month => (month, year)))

/-- `nexis_scraper`: the same loop but with `range(start, end + 1)` — the end
year is *included*. -/
def scraperMonthsAndYears (start e : Nat) : List (Nat × Nat) :=
  (List.range' start (e + 1 - start)).flatMap
    (fun year => (List.range' 1 12).map (fun month => (month, year)))

/-! ## Chunk ranges (`download`) -/

/-- Forward pass of `download`: `for i in range(0, min(n_results, 1000), 100)`
with `x, y = i + 1, min(i + 100, n_results)`. -/
def forwardRanges (nResults : Nat) : List (Nat × Nat) :=
  (pyRange0 (min nResults 1000) 100).map (fun i => (i + 1, min (i + 100) nResults))

/-- Backward pass of `download`: `for i in range(0, min(n_results - 1000,
1000), 100)` with `x, y = i + 1, min(i + 100, n_results - 1000)` (natural
subtraction agrees with Python here: for `n_results ≤ 1000` both give an empty
range). -/
def backwardRanges (nResults : Nat) : List (Nat × Nat) :=
  (pyRange0 (min (nResults - 1000) 1000) 100).map
    (fun i => (i + 1, min (i + 100) (nResults - 1000)))

/-- The artifact file name `f"{b}{range_}.zip"` with
`range_ = f"{x}-{y}" if x != y else f"{x}"` and `b = "B"` for a Backward
chunk. -/
def chunkName (b : Bool) (x y : Nat) : List Char :=
  (if b then ['B'] else []) ++ decChars x ++
    (if x = y then [] else '-' :: decChars y) ++ ".zip".toList

/-- Python `name.endswith(suffix)`. -/
def pyEndsWith (s suffix : List Char) : Bool :=
  suffix.isSuffixOf s

/-! ## Resume classification (head of `search_by_month`) -/

inductive Resume where
  | complete
  | cappedForward
  | needsWork
deriving DecidableEq, Repr

/-- The artifact pre-check at the top of `search_by_month`: if any existing
file name does not end in `00.zip` the month is complete; otherwise if any
name ends in `000.zip` the forward pass was capped at 1000; otherwise the
month still needs work. -/
def classify (names : List (List Char)) : Resume :=
  if names.any (fun a => ! pyEndsWith a ("00.zip".toList)) then .complete
  else if names.any (fun a => pyEndsWith a ("000.zip".toList)) then .cappedForward
  else .needsWork

/-- A chunk persisted by `download`: direction flag and index range. -/
structure Chunk where
  b : Bool
  x : Nat
  y : Nat
deriving DecidableEq, Repr

/-- The shape of every index range `download` ever persists: ranges start just
past a multiple of 100, are at most 100 wide, and end at or before position
1000 (both passes cap their loop at 1000). -/
def ChunkInv (c : Chunk) : Prop :=
  c.x % 100 = 1 ∧ c.x ≤ c.y ∧ c.y ≤ c.x + 99 ∧ c.y ≤ 1000

instance : DecidablePred ChunkInv := fun c => by unfold ChunkInv; infer_instance

def chunkNameOf (c : Chunk) : List Char := chunkName c.b c.x c.y

/-! ## The `clickthrough` window loop -/

/-- The outcome of `search_by_month` for one window, as seen by the loop in
`clickthrough`: it can raise (any collaborator exception), return `None`
(nothing to do), or return normally. -/
inductive NarrowRes where
  | exn
  | noRes
  | ok
deriving DecidableEq, Repr

/-- The `for month, year in q:` loop of `clickthrough`, which runs inside a
single `try`: a raise from `search_by_month` or `download` propagates to the
top-level `except`, ending the whole loop.  Returns the list of windows whose
narrowing step was attempted and whether the run was aborted by an
exception.  `dl w = false` models `download` raising for window `w`. -/
def clickthroughRun (nar : Nat × Nat → NarrowRes) (dl : Nat × Nat → Bool) :
    List (Nat × Nat) → List (Nat × Nat) × Bool
  | [] => ([], false)
  | w :: ws =>
    match nar w with
    | .exn => ([w], true)
    | .noRes =>
      let r := clickthroughRun nar dl ws
      (w :: r.1, r.2)
    | .ok =>
      if dl w then
        let r := clickthroughRun nar dl ws
        (w :: r.1, r.2)
      else ([w], true)

/-! ## The chunk loop of `download` (C8) -/

/-- Stored artifacts, as an association list from file name to (abstract)
archive content. -/
def lookupStore : List (List Char × Nat) → List Char → Option Nat
  | [], _ => none
  | (k, v) :: rest, nm => if k = nm then some v else lookupStore rest nm

/-- The `for i in r:` loop of `download`: for each planned chunk, if the
destination artifact already exists the chunk is skipped with no fetcher
interaction (`continue`); otherwise the fetcher is invoked and the artifact
persisted.  Returns the final store and, in order, the names for which the
fetcher was invoked. -/
def downloadRun (fetch : List Char → Nat) :
    List Chunk → List (List Char × Nat) → List (List Char × Nat) × List (List Char)
  | [], store => (store, [])
  | c :: cs, store =>
    let nm := chunkNameOf c
    match lookupStore store nm with
    | some _ => downloadRun fetch cs store
    | none =>
      let r := downloadRun fetch cs (store ++ [(nm, fetch nm)])
      (r.1, nm :: r.2)

/-! ## Concrete inputs used by the claims -/

/-- A well-formed blob (three line breaks, `Body`, closing `Load-Date`) with
no `Dateline:` line. -/
def noDatelineInput : List Char :=
  "T1\nSrc\nJan 5, 2021\nmeta stuff Body body text Load-Date end".toList

/-- The RecordParser round-trip input of spec section 8. -/
def roundTripInput : List Char :=
  "T1\nSrc\nJan 5, 2021\n...Dateline: Paris, France\n...Body\n...Graphic\n...".toList

/-- The record `parse` actually produces for `roundTripInput`. -/
def roundTripRecord : DocRecord :=
  { date := some ("2021-01-05".toList)
    country := none
    location := some ("Paris".toList)
    source := "Src".toList
    title := "T1".toList
    text := "...".toList }

/-- A blob whose date line does not parse, so `parse` succeeds with a `none`
date. -/
def datelessInput : List Char :=
  "T\nS\nnotadate\nDateline: Paris, France, Jan 5\nBody xx Load-Date y".toList

/-- The record `parse` produces for `datelessInput`. -/
def datelessRecord : DocRecord :=
  { date := none
    country := some ("France".toList)
    location := some ("Paris".toList)
    source := "S".toList
    title := "T".toList
    text := "xx".toList }

/-- A blob satisfying the structural precondition (line breaks, `Body`,
closing marker) whose dateline clause makes the regex capture a location
containing two `", "` separators. -/
def multiCommaInput : List Char :=
  "T\nS\nJan 5, 2021\nDateline: A, B, C, D\nBody xx Load-Date y".toList

/-- A well-formed blob used to witness the no-`ValueError` part of the parse
precondition claim. -/
def wellFormedInput : List Char :=
  "T2\nSrc2\nJan 6, 2021\nDateline: Rome, Italy, Jan 6\nBody some text Load-Date x".toList

/-- A blob with three line breaks but no `Body` marker. -/
def noBodyInput : List Char :=
  "a\nb\nc\nno closing marker here".toList

/-- A blob with line breaks and `Body` but no closing marker after it. -/
def noClosingInput : List Char :=
  "a\nb\nc\nsome meta Body text with no closing".toList

/-- A narrowing oracle that raises for the window `(1, 2020)` and succeeds on
every other window. -/
def narrowFailsJan : Nat × Nat → NarrowRes :=
  fun w => if w = (1, 2020) then .exn else .ok

/-- A download step that never raises. -/
def dlAlwaysOk : Nat × Nat → Bool := fun _ => true

/-- An arbitrary fetcher returning a fixed archive content. -/
def fetchConst : List Char → Nat := fun _ => 7

/-- A one-artifact store: the capped forward chunk `901-1000.zip`. -/
def sampleArts : List Chunk := [⟨false, 901, 1000⟩]

deriving instance DecidableEq for Except

/-! ## Lemma aliases -/

theorem isPrefixOfIff {l₁ l₂ : List Char} : l₁.isPrefixOf l₂ = true ↔ l₁ <+: l₂ := by
  exact List.isPrefixOf_iff_prefix

theorem reversePrefixIff {l₁ l₂ : List Char} : l₁.reverse <+: l₂.reverse ↔ l₁ <:+ l₂ := by
  exact List.reverse_prefix

theorem nilPrefixChar {l : List Char} : [] <+: l := by
  exact List.nil_prefix


/-! ## Lemmas: decimal digits -/

theorem digitsFuel_eq (fuel : Nat) :
    ∀ n : Nat, n ≤ fuel → digitsFuel fuel n = Nat.digits 10 n := by
  induction fuel with
  | zero => intro n h; interval_cases n; simp [digitsFuel]
  | succ f ih =>
    intro n h
    by_cases hn : n = 0
    · simp [digitsFuel, hn]
    · rw [digitsFuel, if_neg hn, ih (n / 10) (by omega),
        ← Nat.digits_def' (by norm_num) (Nat.pos_of_ne_zero hn)]

theorem decDigits_eq (n : Nat) : decDigits n = Nat.digits 10 n :=
  digitsFuel_eq n n le_rfl

/-! ## Lemmas: splitting -/

theorem splitOnce_eq {sep : List Char} :
    ∀ {s a b : List Char}, splitOnce sep s = some (a, b) → s = a ++ sep ++ b := by
  intro s
  induction s with
  | nil =>
    intro a b h
    by_cases hsep : sep.isEmpty <;> simp [splitOnce, hsep] at h
    obtain ⟨rfl, rfl⟩ := h
    simp [List.isEmpty_iff.mp hsep]
  | cons c rest ih =>
    intro a b h
    rw [splitOnce] at h
    by_cases hp : sep.isPrefixOf (c :: rest)
    · rw [if_pos hp] at h
      obtain ⟨t, ht⟩ := isPrefixOfIff.mp hp
      injection h with h
      injection h with h1 h2
      subst h1
      rw [← ht, List.drop_left] at h2
      simp [← ht, h2]
    · rw [if_neg hp] at h
      cases hrec : splitOnce sep rest with
      | none => rw [hrec] at h; exact absurd h (by simp)
      | some p =>
        obtain ⟨a', b'⟩ := p
        rw [hrec] at h
        injection h with h
        injection h with h1 h2
        subst h1 h2
        simp [ih hrec]

theorem splitOnce_char {c : Char} :
    ∀ {s a b : List Char}, splitOnce [c] s = some (a, b) → s = a ++ c :: b ∧ c ∉ a := by
  intro s
  induction s with
  | nil => intro a b h; simp [splitOnce] at h
  | cons d rest ih =>
    intro a b h
    rw [splitOnce] at h
    by_cases hp : [c].isPrefixOf (d :: rest)
    · rw [if_pos hp] at h
      have hdc : c = d := by
        have := isPrefixOfIff.mp hp
        rcases this with ⟨t, ht⟩
        simpa using congrArg (fun l => l.head?) ht
      injection h with h
      injection h with h1 h2
      subst h1
      simp [← h2, hdc]
    · rw [if_neg hp] at h
      have hdc : c ≠ d := by
        intro hcd
        exact hp (isPrefixOfIff.mpr (by simp [hcd]))
      cases hrec : splitOnce [c] rest with
      | none => rw [hrec] at h; exact absurd h (by simp)
      | some p =>
        obtain ⟨a', b'⟩ := p
        rw [hrec] at h
        injection h with h
        injection h with h1 h2
        subst h1 h2
        obtain ⟨hr, hm⟩ := ih hrec
        refine ⟨by simp [hr], ?_⟩
        simp only [List.mem_cons, not_or]
        exact ⟨hdc, hm⟩

theorem splitOnce_isSome_of_parts (sep : List Char) :
    ∀ (u v : List Char), (splitOnce sep (u ++ sep ++ v)).isSome = true := by
  intro u
  induction u with
  | nil =>
    intro v
    cases hs : sep ++ v with
    | nil =>
      have hsep : sep = [] := by
        cases sep with
        | nil => rfl
        | cons e t => simp at hs
      have hv : v = [] := by rw [hsep] at hs; simpa using hs
      simp [hsep, hv, splitOnce]
    | cons c rest =>
      simp only [List.nil_append, hs, splitOnce]
      rw [if_pos (isPrefixOfIff.mpr (hs ▸ List.prefix_append sep v))]
      simp
  | cons d u' ih =>
    intro v
    simp only [List.cons_append, splitOnce, List.append_eq]
    split
    · simp
    · have := ih v
      cases hrec : splitOnce sep (u' ++ sep ++ v) with
      | none => rw [hrec] at this; simp at this
      | some p => obtain ⟨a, b⟩ := p; simp

theorem containsSub_iff {sep s : List Char} :
    containsSub sep s = true ↔ ∃ u v, s = u ++ sep ++ v := by
  constructor
  · intro h
    obtain ⟨⟨a, b⟩, hab⟩ := Option.isSome_iff_exists.mp h
    exact ⟨a, b, splitOnce_eq hab⟩
  · rintro ⟨u, v, rfl⟩
    exact splitOnce_isSome_of_parts sep u v

theorem splitOnce_suffix {sep s a b : List Char}
    (h : splitOnce sep s = some (a, b)) : b <:+ s := by
  rw [splitOnce_eq h]
  exact List.suffix_append (a ++ sep) b

theorem containsSub_of_suffix {n b s : List Char}
    (hc : containsSub n b = true) (hs : b <:+ s) : containsSub n s = true := by
  obtain ⟨u, v, rfl⟩ := containsSub_iff.mp hc
  obtain ⟨w, rfl⟩ := hs
  exact containsSub_iff.mpr ⟨w ++ u, v, by simp⟩

theorem rsplitOnce_isSome_of_parts {sep : List Char} (hsep : sep ≠ []) :
    ∀ (u v : List Char), (rsplitOnce sep (u ++ sep ++ v)).isSome = true := by
  intro u
  induction u with
  | nil =>
    intro v
    cases sep with
    | nil => exact absurd rfl hsep
    | cons e t =>
      simp only [List.nil_append, List.cons_append, rsplitOnce, List.append_eq]
      cases hrec : rsplitOnce (e :: t) (t ++ v) with
      | some p => obtain ⟨a, b⟩ := p; simp
      | none =>
        rw [if_pos (isPrefixOfIff.mpr
          (List.cons_append e t v ▸ List.prefix_append (e :: t) v))]
        simp
  | cons d u' ih =>
    intro v
    simp only [List.cons_append, rsplitOnce, List.append_eq]
    have := ih v
    cases hrec : rsplitOnce sep (u' ++ sep ++ v) with
    | none => rw [hrec] at this; simp at this
    | some p => obtain ⟨a, b⟩ := p; simp

theorem rsplitOnce_isSome_of_containsSub {sep s : List Char} (hsep : sep ≠ [])
    (h : containsSub sep s = true) : (rsplitOnce sep s).isSome = true := by
  obtain ⟨u, v, rfl⟩ := containsSub_iff.mp h
  exact rsplitOnce_isSome_of_parts hsep u v

theorem splitOnce_count {c : Char} {s a b : List Char}
    (h : splitOnce [c] s = some (a, b)) : s.count c = b.count c + 1 := by
  obtain ⟨rfl, hm⟩ := splitOnce_char h
  rw [List.count_append, List.count_cons_self, List.count_eq_zero_of_not_mem hm]
  omega

/-! ## Lemmas: the parser stages -/

theorem splitOnce_eq_none_of_not_containsSub {sep s : List Char}
    (h : containsSub sep s = false) : splitOnce sep s = none := by
  unfold containsSub at h
  exact Option.not_isSome_iff_eq_none.mp (by simp [h])

theorem locSplitClicker_isSome (loc0 : List Char) :
    (locSplitClicker loc0).isSome = true := by
  unfold locSplitClicker
  by_cases hc : containsSub commaSpace loc0 = true
  · rw [if_pos hc]
    have h := rsplitOnce_isSome_of_containsSub (by decide) hc
    cases hr : rsplitOnce commaSpace loc0 with
    | none => rw [hr] at h; simp at h
    | some p => obtain ⟨a, b⟩ := p; simp
  · rw [if_neg hc]; simp

theorem bodySplit_isSome {r3 : List Char}
    (h : containsSub graphicMarker r3 = true ∨ containsSub loadDateMarker r3 = true) :
    (bodySplit r3).isSome = true := by
  unfold bodySplit
  by_cases hg : containsSub graphicMarker r3 = true
  · rw [if_pos hg]; exact hg
  · rw [if_neg hg]
    rcases h with h | h
    · exact absurd h hg
    · exact h

/-! Stepping lemmas for `parseWith`, one per branch of the source. -/

theorem parseWith_err1 {ls : List Char → Option (List Char × Option (List Char))}
    {pt : List Char} (h1 : splitOnce nlSep pt = none) :
    parseWith ls pt = .error .valueError := by
  simp [parseWith, h1]

theorem parseWith_err2 {ls : List Char → Option (List Char × Option (List Char))}
    {pt t r1 : List Char} (h1 : splitOnce nlSep pt = some (t, r1))
    (h2 : splitOnce nlSep r1 = none) :
    parseWith ls pt = .error .valueError := by
  simp [parseWith, h1, h2]

theorem parseWith_err3 {ls : List Char → Option (List Char × Option (List Char))}
    {pt t r1 f r2 : List Char} (h1 : splitOnce nlSep pt = some (t, r1))
    (h2 : splitOnce nlSep r1 = some (f, r2)) (h3 : splitOnce nlSep r2 = none) :
    parseWith ls pt = .error .valueError := by
  simp [parseWith, h1, h2, h3]

theorem parseWith_eq_tail {ls : List Char → Option (List Char × Option (List Char))}
    {pt t r1 f r2 d rest : List Char} (h1 : splitOnce nlSep pt = some (t, r1))
    (h2 : splitOnce nlSep r1 = some (f, r2)) (h3 : splitOnce nlSep r2 = some (d, rest)) :
    parseWith ls pt = parseTailWith ls t f d rest := by
  simp [parseWith, h1, h2, h3]

theorem parseTailWith_dl_none {ls : List Char → Option (List Char × Option (List Char))}
    {t f d rest : List Char} (hdl : findallDateline rest = none) :
    parseTailWith ls t f d rest = .error .typeError := by
  simp [parseTailWith, hdl]

theorem parseTailWith_loc_none {ls : List Char → Option (List Char × Option (List Char))}
    {t f d rest loc0 : List Char} (hdl : findallDateline rest = some loc0)
    (hloc : ls loc0 = none) :
    parseTailWith ls t f d rest = .error .valueError := by
  simp [parseTailWith, hdl, hloc]

theorem parseTailWith_body_none {ls : List Char → Option (List Char × Option (List Char))}
    {t f d rest loc0 location : List Char} {country : Option (List Char)}
    (hdl : findallDateline rest = some loc0) (hloc : ls loc0 = some (location, country))
    (hb : splitOnce bodyMarker rest = none) :
    parseTailWith ls t f d rest = .error .valueError := by
  simp [parseTailWith, hdl, hloc, hb]

theorem parseTailWith_close_none {ls : List Char → Option (List Char × Option (List Char))}
    {t f d rest loc0 location m r3 : List Char} {country : Option (List Char)}
    (hdl : findallDateline rest = some loc0) (hloc : ls loc0 = some (location, country))
    (hb : splitOnce bodyMarker rest = some (m, r3)) (hbody : bodySplit r3 = none) :
    parseTailWith ls t f d rest = .error .valueError := by
  simp [parseTailWith, hdl, hloc, hb, hbody]

theorem parseTailWith_ok {ls : List Char → Option (List Char × Option (List Char))}
    {t f d rest loc0 location m r3 text r4 : List Char} {country : Option (List Char)}
    (hdl : findallDateline rest = some loc0) (hloc : ls loc0 = some (location, country))
    (hb : splitOnce bodyMarker rest = some (m, r3))
    (hbody : bodySplit r3 = some (text, r4)) :
    parseTailWith ls t f d rest =
      .ok { date := (parseDateEn (stripChars d)).map formatDate
            country := country
            location := some location
            source := stripChars f
            title := stripChars t
            text := stripChars text } := by
  simp [parseTailWith, hdl, hloc, hb, hbody]

/-! ## Claim C1 -/

/-- C1: the claim says that on a well-formed text with no `Dateline:` line,
`parse` returns a record with null location and country and raises no
exception.  The code instead evaluates `", " in location` with
`location = None` and raises `TypeError`; this theorem evaluates the embedded
parser at such an input and shows the raise. -/
theorem claim_C1_no_dateline_raises :
    parse noDatelineInput = .error .typeError := by decide

/-! ## Claim C3 -/

/-- C3 (counterexample): on the spec's round-trip input the claim asserts
`country = "France"`, but the parser leaves the country null: the dateline
regex `Dateline:\s?(.+),[^,]+\n` treats the final `", France"` as the
mandatory trailing context and captures only `Paris`, which contains no
`", "`. -/
theorem claim_C3_counterexample :
    ¬ ((parse roundTripInput).toOption.map DocRecord.country
        = some (some ("France".toList))) := by decide

/-- C3 (amended): on the round-trip input `parse` returns date `2021-01-05`,
location `Paris`, country null, source `Src`, title `T1`, and the body text
before the `Graphic` marker, trimmed. -/
theorem claim_C3_round_trip :
    parse roundTripInput = .ok roundTripRecord := by decide

/-! ## Claim C10 -/

/-- C10: `parse` is total only on texts satisfying its structural
precondition.  (1) Fewer than three line breaks make an unpacking fail with
`ValueError`.  (2) A text without the marker `Body` always raises.  (3) When
the line splits and the `Body` split succeed but neither `Graphic` nor
`Load-Date` occurs after `Body`, `parse` raises.  (4) When the three line
splits and the `Body` split succeed and a closing marker is present, no
splitting step can fail: `parse` never returns the unpacking error
`ValueError` (it returns a record, or `TypeError` from the missing-dateline
slip). -/
theorem claim_C10_parse_structural_precondition (pt : List Char) :
    (pt.count '\n' < 3 → parse pt = .error .valueError) ∧
    (containsSub bodyMarker pt = false → ∃ e, parse pt = .error e) ∧
    (∀ t r1 f r2 d rest m r3,
      splitOnce nlSep pt = some (t, r1) → splitOnce nlSep r1 = some (f, r2) →
      splitOnce nlSep r2 = some (d, rest) → splitOnce bodyMarker rest = some (m, r3) →
      containsSub graphicMarker r3 = false → containsSub loadDateMarker r3 = false →
      ∃ e, parse pt = .error e) ∧
    (∀ t r1 f r2 d rest m r3,
      splitOnce nlSep pt = some (t, r1) → splitOnce nlSep r1 = some (f, r2) →
      splitOnce nlSep r2 = some (d, rest) → splitOnce bodyMarker rest = some (m, r3) →
      containsSub graphicMarker r3 = true ∨ containsSub loadDateMarker r3 = true →
      parse pt ≠ .error .valueError) := by
  refine ⟨?_, ?_, ?_, ?_⟩
  · -- (1) fewer than three line breaks
    intro hcount
    unfold parse
    cases h1 : splitOnce nlSep pt with
    | none => exact parseWith_err1 h1
    | some p1 =>
      obtain ⟨t, r1⟩ := p1
      cases h2 : splitOnce nlSep r1 with
      | none => exact parseWith_err2 h1 h2
      | some p2 =>
        obtain ⟨f, r2⟩ := p2
        cases h3 : splitOnce nlSep r2 with
        | none => exact parseWith_err3 h1 h2 h3
        | some p3 =>
          exfalso
          have c1 := splitOnce_count (show splitOnce ['\n'] pt = some (t, r1) from h1)
          have c2 := splitOnce_count (show splitOnce ['\n'] r1 = some (f, r2) from h2)
          have c3 := splitOnce_count
            (show splitOnce ['\n'] r2 = some (p3.1, p3.2) from h3)
          omega
  · -- (2) no Body marker anywhere
    intro hnb
    unfold parse
    cases h1 : splitOnce nlSep pt with
    | none => exact ⟨.valueError, parseWith_err1 h1⟩
    | some p1 =>
      obtain ⟨t, r1⟩ := p1
      cases h2 : splitOnce nlSep r1 with
      | none => exact ⟨.valueError, parseWith_err2 h1 h2⟩
      | some p2 =>
        obtain ⟨f, r2⟩ := p2
        cases h3 : splitOnce nlSep r2 with
        | none => exact ⟨.valueError, parseWith_err3 h1 h2 h3⟩
        | some p3 =>
          obtain ⟨d, rest⟩ := p3
          rw [parseWith_eq_tail h1 h2 h3]
          have hsuf : rest <:+ pt :=
            ((splitOnce_suffix h3).trans (splitOnce_suffix h2)).trans (splitOnce_suffix h1)
          have hbr : containsSub bodyMarker rest = false := by
            cases hcb : containsSub bodyMarker rest with
            | false => rfl
            | true => rw [containsSub_of_suffix hcb hsuf] at hnb; exact absurd hnb (by simp)
          have hbs : splitOnce bodyMarker rest = none :=
            splitOnce_eq_none_of_not_containsSub hbr
          cases hdl : findallDateline rest with
          | none => exact ⟨.typeError, parseTailWith_dl_none hdl⟩
          | some loc0 =>
            cases hloc : locSplitClicker loc0 with
            | none => exact ⟨.valueError, parseTailWith_loc_none hdl hloc⟩
            | some lc =>
              obtain ⟨location, country⟩ := lc
              exact ⟨.valueError, parseTailWith_body_none hdl hloc hbs⟩
  · -- (3) Body present but no closing marker after it
    intro t r1 f r2 d rest m r3 h1 h2 h3 hb hg hl
    unfold parse
    rw [parseWith_eq_tail h1 h2 h3]
    have hbody : bodySplit r3 = none := by
      unfold bodySplit
      rw [if_neg (by simp [hg]), splitOnce_eq_none_of_not_containsSub hl]
    cases hdl : findallDateline rest with
    | none => exact ⟨.typeError, parseTailWith_dl_none hdl⟩
    | some loc0 =>
      cases hloc : locSplitClicker loc0 with
      | none => exact ⟨.valueError, parseTailWith_loc_none hdl hloc⟩
      | some lc =>
        obtain ⟨location, country⟩ := lc
        exact ⟨.valueError, parseTailWith_close_none hdl hloc hb hbody⟩
  · -- (4) full precondition: no splitting step can fail
    intro t r1 f r2 d rest m r3 h1 h2 h3 hb hclose
    unfold parse
    rw [parseWith_eq_tail h1 h2 h3]
    cases hdl : findallDateline rest with
    | none => rw [parseTailWith_dl_none hdl]; intro heq; simp at heq
    | some loc0 =>
      have hls := locSplitClicker_isSome loc0
      cases hloc : locSplitClicker loc0 with
      | none => rw [hloc] at hls; simp at hls
      | some lc =>
        obtain ⟨location, country⟩ := lc
        have hbs := bodySplit_isSome hclose
        cases hbody : bodySplit r3 with
        | none => rw [hbody] at hbs; simp at hbs
        | some tx =>
          obtain ⟨text, r4⟩ := tx
          rw [parseTailWith_ok hdl hloc hb hbody]
          intro heq
          simp at heq

/-- C10 (witness): the four parts of the precondition theorem at concrete
inputs: a text with no line break, a text with no `Body`, a text with `Body`
but no closing marker, and a fully well-formed text. -/
theorem claim_C10_witness :
    parse ("x".toList) = .error .valueError ∧
    (∃ e, parse noBodyInput = .error e) ∧
    (∃ e, parse noClosingInput = .error e) ∧
    parse wellFormedInput ≠ .error .valueError := by
  refine ⟨(claim_C10_parse_structural_precondition ("x".toList)).1 (by decide),
    (claim_C10_parse_structural_precondition noBodyInput).2.1 (by decide),
    (claim_C10_parse_structural_precondition noClosingInput).2.2.1
      ("a".toList) ("b\nc\nsome meta Body text with no closing".toList)
      ("b".toList) ("c\nsome meta Body text with no closing".toList)
      ("c".toList) ("some meta Body text with no closing".toList)
      ("some meta ".toList) (" text with no closing".toList)
      (by decide) (by decide) (by decide) (by decide) (by decide) (by decide),
    (claim_C10_parse_structural_precondition wellFormedInput).2.2.2
      ("T2".toList)
      ("Src2\nJan 6, 2021\nDateline: Rome, Italy, Jan 6\nBody some text Load-Date x".toList)
      ("Src2".toList)
      ("Jan 6, 2021\nDateline: Rome, Italy, Jan 6\nBody some text Load-Date x".toList)
      ("Jan 6, 2021".toList)
      ("Dateline: Rome, Italy, Jan 6\nBody some text Load-Date x".toList)
      ("Dateline: Rome, Italy, Jan 6\n".toList)
      (" some text Load-Date x".toList)
      (by decide) (by decide) (by decide) (by decide) (Or.inr (by decide))⟩

/-- C10 (counterexample): the claim also covers `nexis_scraper`'s `parse`
(cited in its sources), whose location step uses an unbounded
`location.split(", ")`.  On a structurally well-formed input (four line
breaks, `Body`, `Load-Date`) whose dateline makes the regex capture
`A, B, C`, that split yields three parts and its unpacking raises
`ValueError`, so the splitting steps *can* fail under the stated
precondition. -/
theorem claim_C10_counterexample :
    multiCommaInput.count '\n' = 4 ∧
    containsSub bodyMarker multiCommaInput = true ∧
    containsSub loadDateMarker multiCommaInput = true ∧
    scraperParse multiCommaInput = .error .valueError := by decide

/-! ## Claim C9 -/

/-! Stepping lemmas for `process_download`. -/

theorem pd_cons_err {fn t : List Char} {rest : List (List Char × List Char)} {e : PErr}
    (h : parse t = .error e) :
    process_download ((fn, t) :: rest) = ⟨[], [], true⟩ := by
  simp [process_download, h]

theorem pd_cons_dateless {fn t : List Char} {rest : List (List Char × List Char)}
    {item : DocRecord} (h : parse t = .ok item) (hd : dateFalsy item.date = true) :
    process_download ((fn, t) :: rest) =
      ⟨(process_download rest).written, fn :: (process_download rest).reported,
        (process_download rest).failed⟩ := by
  simp [process_download, h, hd]

theorem pd_cons_reparse_fail {fn t dd : List Char} {rest : List (List Char × List Char)}
    {item : DocRecord} (h : parse t = .ok item) (hd : dateFalsy item.date = false)
    (hdate : item.date = some dd) (hre : parseDateEn dd = none) :
    process_download ((fn, t) :: rest) = ⟨[], [], true⟩ := by
  have hd' : dateFalsy (some dd) = false := hdate ▸ hd
  simp [process_download, h, hd', hdate, hre]

theorem pd_cons_ok {fn t dd : List Char} {rest : List (List Char × List Char)}
    {item : DocRecord} {ymd : YMD} (h : parse t = .ok item)
    (hd : dateFalsy item.date = false) (hdate : item.date = some dd)
    (hre : parseDateEn dd = some ymd) :
    process_download ((fn, t) :: rest) =
      ⟨(formatDate ymd, fn) :: (process_download rest).written,
        (process_download rest).reported, (process_download rest).failed⟩ := by
  have hd' : dateFalsy (some dd) = false := hdate ▸ hd
  simp [process_download, h, hd', hdate, hre]

/-- C9: an archive entry whose parsed record has a falsy date is dropped (no
record file is written for it, and the files written are exactly those of the
remaining entries), its name is reported, and processing continues: the run's
written set and failure status are those of the same list without the dateless
entry. -/
theorem claim_C9_dateless_entry_dropped_and_reported
    (l1 l2 : List (List Char × List Char)) (fn t : List Char) (item : DocRecord)
    (hp : parse t = .ok item) (hd : dateFalsy item.date = true) :
    (process_download (l1 ++ (fn, t) :: l2)).written = (process_download (l1 ++ l2)).written ∧
    ((process_download l1).failed = false →
      fn ∈ (process_download (l1 ++ (fn, t) :: l2)).reported) ∧
    (process_download (l1 ++ (fn, t) :: l2)).failed = (process_download (l1 ++ l2)).failed := by
  induction l1 with
  | nil =>
    rw [List.nil_append, List.nil_append, pd_cons_dateless hp hd]
    exact ⟨rfl, fun _ => List.mem_cons_self fn _, rfl⟩
  | cons gu l1' ih =>
    obtain ⟨g, u⟩ := gu
    rw [List.cons_append, List.cons_append]
    cases hpu : parse u with
    | error e =>
      rw [pd_cons_err hpu, pd_cons_err hpu]
      refine ⟨rfl, ?_, rfl⟩
      intro hfail
      rw [pd_cons_err hpu] at hfail
      simp at hfail
    | ok item' =>
      cases hdf : dateFalsy item'.date with
      | true =>
        rw [pd_cons_dateless hpu hdf, pd_cons_dateless hpu hdf]
        refine ⟨ih.1, ?_, ih.2.2⟩
        intro hfail
        rw [pd_cons_dateless hpu hdf] at hfail
        exact List.mem_cons_of_mem g (ih.2.1 hfail)
      | false =>
        cases hdate : item'.date with
        | none => rw [hdate] at hdf; simp [dateFalsy] at hdf
        | some dd =>
          cases hre : parseDateEn dd with
          | none =>
            rw [pd_cons_reparse_fail hpu hdf hdate hre,
              pd_cons_reparse_fail hpu hdf hdate hre]
            refine ⟨rfl, ?_, rfl⟩
            intro hfail
            rw [pd_cons_reparse_fail hpu hdf hdate hre] at hfail
            simp at hfail
          | some ymd =>
            rw [pd_cons_ok hpu hdf hdate hre, pd_cons_ok hpu hdf hdate hre]
            refine ⟨by rw [ih.1], ?_, ih.2.2⟩
            intro hfail
            rw [pd_cons_ok hpu hdf hdate hre] at hfail
            exact ih.2.1 hfail

/-- C9 (witness): one archive entry whose date line does not parse: nothing is
written, the entry is reported by name, and the failure status matches the
empty run. -/
theorem claim_C9_witness :
    (process_download ([] ++ ("f1".toList, datelessInput) :: [])).written =
      (process_download ([] ++ [])).written ∧
    ((process_download ([] : List (List Char × List Char))).failed = false →
      "f1".toList ∈ (process_download ([] ++ ("f1".toList, datelessInput) :: [])).reported) ∧
    (process_download ([] ++ ("f1".toList, datelessInput) :: [])).failed =
      (process_download ([] ++ [])).failed :=
  claim_C9_dateless_entry_dropped_and_reported [] [] ("f1".toList) datelessInput
    datelessRecord (by decide) (by decide)

/-! ## Claim C2 -/

/-- C2 (counterexample): with a narrowing oracle that raises on the first
window of a two-window plan, the second window's narrowing is never attempted
and the run aborts — contradicting the claim that a non-SessionError
collaborator failure abandons only that window and proceeds to the next. -/
theorem claim_C2_counterexample :
    ((2, 2020) ∉ (clickthroughRun narrowFailsJan dlAlwaysOk [(1, 2020), (2, 2020)]).1) ∧
    (clickthroughRun narrowFailsJan dlAlwaysOk [(1, 2020), (2, 2020)]).2 = true := by
  decide

/-- C2 (amended): in `clickthrough` the whole month loop runs inside a single
`try`; an exception in the narrowing step of any window propagates to the
top-level handler and ends the run.  If every window before `w` completes
without raising and the narrowing of `w` raises, then exactly the windows up
to and including `w` are attempted and the run is aborted. -/
theorem claim_C2_narrow_failure_aborts_run
    (nar : Nat × Nat → NarrowRes) (dl : Nat × Nat → Bool)
    (l1 : List (Nat × Nat)) (w : Nat × Nat) (l2 : List (Nat × Nat))
    (hok : ∀ u ∈ l1, nar u ≠ .exn ∧ (nar u = .ok → dl u = true))
    (hw : nar w = .exn) :
    clickthroughRun nar dl (l1 ++ w :: l2) = (l1 ++ [w], true) := by
  induction l1 with
  | nil => rw [List.nil_append]; simp [clickthroughRun, hw]
  | cons u l1' ih =>
    have hu := hok u (List.mem_cons_self u l1')
    have hrec := ih (fun x hx => hok x (List.mem_cons_of_mem u hx))
    rw [List.cons_append]
    cases hnu : nar u with
    | exn => exact absurd hnu hu.1
    | noRes => simp [clickthroughRun, hnu, hrec]
    | ok => simp [clickthroughRun, hnu, hu.2 hnu, hrec]

/-- C2 (witness): the amended theorem at the concrete two-window plan. -/
theorem claim_C2_witness :
    clickthroughRun narrowFailsJan dlAlwaysOk ([] ++ (1, 2020) :: [(2, 2020)]) =
      ([] ++ [(1, 2020)], true) :=
  claim_C2_narrow_failure_aborts_run narrowFailsJan dlAlwaysOk [] (1, 2020) [(2, 2020)]
    (by simp) (by decide)

/-! ## Claim C8 -/

theorem lookupStore_append {store l : List (List Char × Nat)} {nm : List Char} {v : Nat}
    (h : lookupStore store nm = some v) : lookupStore (store ++ l) nm = some v := by
  induction store with
  | nil => simp [lookupStore] at h
  | cons kv rest ih =>
    obtain ⟨k, w⟩ := kv
    rw [List.cons_append]
    by_cases hk : k = nm
    · simpa [lookupStore, hk] using h
    · rw [lookupStore, if_neg hk] at h ⊢
      exact ih h

/-- C8: a chunk whose destination artifact already exists is skipped: after
the whole `download` loop the stored artifact is unchanged, and no fetch was
issued for its name — so a restarted run never re-fetches an existing
chunk. -/
theorem claim_C8_existing_chunk_skipped
    (fetch : List Char → Nat) (cs : List Chunk) (store : List (List Char × Nat))
    (nm : List Char) (v : Nat) (h : lookupStore store nm = some v) :
    lookupStore (downloadRun fetch cs store).1 nm = some v ∧
    nm ∉ (downloadRun fetch cs store).2 := by
  induction cs generalizing store with
  | nil => exact ⟨h, by simp [downloadRun]⟩
  | cons c cs' ih =>
    cases hl : lookupStore store (chunkNameOf c) with
    | some w =>
      rw [downloadRun]
      simp only [hl]
      exact ih store h
    | none =>
      have hne : nm ≠ chunkNameOf c := by
        intro he
        rw [he] at h
        rw [h] at hl
        exact Option.noConfusion hl
      have hrec := ih (store ++ [(chunkNameOf c, fetch (chunkNameOf c))])
        (lookupStore_append h)
      rw [downloadRun]
      simp only [hl]
      refine ⟨hrec.1, ?_⟩
      intro hmem
      rcases List.mem_cons.mp hmem with he | hm
      · exact hne he
      · exact hrec.2 hm

/-- C8 (witness): a two-chunk plan where the first chunk's artifact already
exists: its stored content survives and it is never fetched. -/
theorem claim_C8_witness :
    lookupStore (downloadRun fetchConst [⟨false, 1, 100⟩, ⟨false, 101, 200⟩]
      [(chunkNameOf ⟨false, 1, 100⟩, 42)]).1 (chunkNameOf ⟨false, 1, 100⟩) = some 42 ∧
    chunkNameOf ⟨false, 1, 100⟩ ∉
      (downloadRun fetchConst [⟨false, 1, 100⟩, ⟨false, 101, 200⟩]
        [(chunkNameOf ⟨false, 1, 100⟩, 42)]).2 :=
  claim_C8_existing_chunk_skipped fetchConst _ _ _ 42 (by decide)

/-! ## Claim C7 -/

/-- The month/year double loop enumerates `(1 + k % 12, start + k / 12)` for
`k < 12 * n`. -/
theorem flatMap_months_eq (s n : Nat) :
    (List.range' s n).flatMap (fun year => (List.range' 1 12).map (fun month => (month, year)))
      = (List.range (12 * n)).map (fun k => (1 + k % 12, s + k / 12)) := by
  induction n generalizing s with
  | zero => simp
  | succ n ih =>
    rw [List.range'_succ, List.flatMap_cons, ih (s + 1),
      show 12 * (n + 1) = 12 + 12 * n by ring, List.range_add, List.map_append,
      List.map_map]
    congr 1
    apply List.map_congr_left
    intro k _
    simp only [Function.comp_apply]
    have h1 : (12 + k) % 12 = k % 12 := Nat.add_mod_left 12 k
    have h2 : (12 + k) / 12 = k / 12 + 1 := by
      rw [Nat.add_comm 12 k]
      exact Nat.add_div_right k (by norm_num)
    rw [h1, h2]
    simp only [Prod.mk.injEq]
    exact ⟨trivial, by omega⟩

theorem months_and_years_eq (s e : Nat) :
    months_and_years s e
      = (List.range (12 * (e - s))).map (fun k => (1 + k % 12, s + k / 12)) :=
  flatMap_months_eq s (e - s)

/-- C7 (counterexample): the `nexis_scraper` planner (cited in the claim's
sources) iterates `range(start, end + 1)`, so for `start = 2020, end = 2021`
it emits the window `(1, 2021)` whose year is not `< end` — contradicting
"month ∈ [1,12] and year ∈ [start, end)" and the count of exactly 12
windows. -/
theorem claim_C7_counterexample :
    ((1, 2021) ∈ scraperMonthsAndYears 2020 2021) ∧ ¬ ((2021 : Nat) < 2021) := by
  decide

/-- C7 (amended): `nexis_clicker`'s planner produces exactly the windows
`(month, year)` with `month ∈ [1,12]`, `year ∈ [start, end)`, one per
calendar month, in chronological order; `start = 2020, end = 2021` gives
exactly the 12 windows of 2020 in order and `start = end` gives the empty
sequence.  The `nexis_scraper` variant instead includes the end year: it
equals the clicker planner run to `end + 1`. -/
theorem claim_C7_window_planner (s e : Nat) :
    (∀ m y : Nat, (m, y) ∈ months_and_years s e ↔ 1 ≤ m ∧ m ≤ 12 ∧ s ≤ y ∧ y < e) ∧
    (months_and_years s e).Pairwise
      (fun a b => a.2 < b.2 ∨ (a.2 = b.2 ∧ a.1 < b.1)) ∧
    (months_and_years s e).Nodup ∧
    (months_and_years s e).length = 12 * (e - s) ∧
    months_and_years s s = [] ∧
    months_and_years 2020 2021 =
      [(1,2020),(2,2020),(3,2020),(4,2020),(5,2020),(6,2020),
       (7,2020),(8,2020),(9,2020),(10,2020),(11,2020),(12,2020)] ∧
    scraperMonthsAndYears s e = months_and_years s (e + 1) := by
  refine ⟨?_, ?_, ?_, ?_, ?_, by decide, rfl⟩
  · intro m y
    rw [months_and_years_eq]
    simp only [List.mem_map, List.mem_range, Prod.mk.injEq]
    constructor
    · rintro ⟨k, hk, hm, hy⟩
      omega
    · intro hb
      exact ⟨(m - 1) + 12 * (y - s), by omega, by omega, by omega⟩
  · rw [months_and_years_eq]
    refine List.Pairwise.map _ ?_ (List.pairwise_lt_range _)
    intro a b hab
    simp only
    omega
  · rw [months_and_years_eq]
    refine List.Nodup.map_on ?_ (List.nodup_range _)
    intro a ha b hb hab
    rw [List.mem_range] at ha hb
    rw [Prod.mk.injEq] at hab
    omega
  · rw [months_and_years_eq]
    simp
  · simp [months_and_years]

/-! ## Claim C6 -/

theorem forwardRanges_eq (N : Nat) :
    forwardRanges N = (List.range ((min N 1000 + 99) / 100)).map
      (fun k => (k * 100 + 1, min (k * 100 + 100) N)) := by
  unfold forwardRanges pyRange0
  rw [List.map_map]
  rfl

theorem forwardRanges_cover (N p : Nat) :
    (∃ r ∈ forwardRanges N, r.1 ≤ p ∧ p ≤ r.2) ↔ (1 ≤ p ∧ p ≤ min N 1000) := by
  rw [forwardRanges_eq]
  simp only [List.mem_map, List.mem_range]
  constructor
  · rintro ⟨r, ⟨k, hk, rfl⟩, h1, h2⟩
    simp only at h1 h2
    omega
  · intro h
    exact ⟨((p - 1) / 100 * 100 + 1, min ((p - 1) / 100 * 100 + 100) N),
      ⟨(p - 1) / 100, by omega, rfl⟩, by omega, by omega⟩

/-- C6: for every total result count, the Forward pass plans ranges that
exactly cover `[1, min N 1000]`, pairwise disjoint and in ascending order,
with `rangeStart ≤ rangeEnd` and `rangeEnd − rangeStart < 100`; `N = 2500`
yields exactly the ten ranges `1-100 … 901-1000`. -/
theorem claim_C6_forward_ranges_cover (N : Nat) :
    (∀ p, (∃ r ∈ forwardRanges N, r.1 ≤ p ∧ p ≤ r.2) ↔ (1 ≤ p ∧ p ≤ min N 1000)) ∧
    (forwardRanges N).Pairwise (fun r t => r.2 < t.1) ∧
    (∀ r ∈ forwardRanges N, r.1 ≤ r.2 ∧ r.2 - r.1 < 100) ∧
    forwardRanges 2500 = [(1,100),(101,200),(201,300),(301,400),(401,500),
      (501,600),(601,700),(701,800),(801,900),(901,1000)] := by
  refine ⟨forwardRanges_cover N, ?_, ?_, by decide⟩
  · rw [forwardRanges_eq]
    refine List.Pairwise.map _ ?_ (List.pairwise_lt_range _)
    intro a b hab
    simp only
    omega
  · rw [forwardRanges_eq]
    intro r hr
    simp only [List.mem_map, List.mem_range] at hr
    obtain ⟨k, hk, rfl⟩ := hr
    simp only
    omega

/-! ## Claim C4 -/

/-- The Backward loop is the Forward loop run on `n_results - 1000` (same
relative indices; only the `B` name prefix differs). -/
theorem backwardRanges_eq_forward (N : Nat) :
    backwardRanges N = forwardRanges (N - 1000) := rfl

/-- C4 (counterexample): for `N = 2500` the first Backward chunk is the range
`(1, 100)`, stored as `B1-100.zip` — its start index is 1, not
`N - 1000 - 0·100 + 1 = 1501` as the claim's labeling formula demands. -/
theorem claim_C4_counterexample :
    (backwardRanges 2500)[0]? = some (1, 100) ∧
    chunkName true 1 100 = "B1-100.zip".toList ∧
    (1 : Nat) ≠ 2500 - 1000 - 0 * 100 + 1 := by decide

/-! ## Lemmas: decimal names and suffixes -/

theorem dchar_eq_zero_iff : ∀ d, d < 10 → (dchar d = '0' ↔ d = 0) := by decide

theorem dchar_ne_B : ∀ d, d < 10 → dchar d ≠ 'B' := by decide

theorem suffix_append_cancel {u v t : List Char} : u ++ t <:+ v ++ t ↔ u <:+ v := by
  constructor
  · rintro ⟨w, hw⟩
    rw [← List.append_assoc] at hw
    exact ⟨w, List.append_cancel_right hw⟩
  · rintro ⟨w, hw⟩
    exact ⟨w, by rw [← List.append_assoc, hw]⟩

theorem suffix_spill {s a b : List Char} (h : s <:+ a ++ b) : s <:+ b ∨ b <:+ s :=
  List.suffix_or_suffix_of_suffix h (List.suffix_append a b)

theorem suffix_reverse_iff {s t : List Char} : s <:+ t.reverse ↔ s.reverse <+: t := by
  constructor
  · intro h
    have := reversePrefixIff.mpr h
    simpa using this
  · intro h
    exact reversePrefixIff.mp (by simpa using h)

theorem zeros_prefix_one (m : Nat) : (['0'] <+: revDec m) ↔ (m ≠ 0 ∧ m % 10 = 0) := by
  unfold revDec
  rw [decDigits_eq]
  by_cases hm : m = 0
  · simp [hm]
  · rw [Nat.digits_def' (b := 10) (by norm_num) (Nat.pos_of_ne_zero hm)]
    simp only [List.map_cons, List.cons_prefix_cons, nilPrefixChar, and_true]
    constructor
    · intro h
      exact ⟨hm, (dchar_eq_zero_iff (m % 10) (Nat.mod_lt m (by norm_num))).mp h.symm⟩
    · rintro ⟨-, h10⟩
      rw [h10]
      decide

theorem zeros_prefix_two (m : Nat) : (['0','0'] <+: revDec m) ↔ (m ≠ 0 ∧ m % 100 = 0) := by
  unfold revDec
  rw [decDigits_eq]
  by_cases hm : m = 0
  · simp [hm]
  · rw [Nat.digits_def' (b := 10) (by norm_num) (Nat.pos_of_ne_zero hm)]
    simp only [List.map_cons, List.cons_prefix_cons]
    have hrest : (Nat.digits 10 (m / 10)).map dchar = revDec (m / 10) := by
      unfold revDec
      rw [decDigits_eq]
    rw [hrest, zeros_prefix_one]
    constructor
    · rintro ⟨h0, hd, h10⟩
      have := (dchar_eq_zero_iff (m % 10) (Nat.mod_lt m (by norm_num))).mp h0.symm
      exact ⟨hm, by omega⟩
    · rintro ⟨-, h100⟩
      have h10 : m % 10 = 0 := by omega
      refine ⟨by rw [h10]; decide, by omega, by omega⟩

theorem zeros_prefix_three (m : Nat) :
    (['0','0','0'] <+: revDec m) ↔ (m ≠ 0 ∧ m % 1000 = 0) := by
  unfold revDec
  rw [decDigits_eq]
  by_cases hm : m = 0
  · simp [hm]
  · rw [Nat.digits_def' (b := 10) (by norm_num) (Nat.pos_of_ne_zero hm)]
    simp only [List.map_cons, List.cons_prefix_cons]
    have hrest : (Nat.digits 10 (m / 10)).map dchar = revDec (m / 10) := by
      unfold revDec
      rw [decDigits_eq]
    rw [hrest, zeros_prefix_two]
    constructor
    · rintro ⟨h0, hd, h100⟩
      have := (dchar_eq_zero_iff (m % 10) (Nat.mod_lt m (by norm_num))).mp h0.symm
      exact ⟨hm, by omega⟩
    · rintro ⟨-, h1000⟩
      have h10 : m % 10 = 0 := by omega
      refine ⟨by rw [h10]; decide, by omega, by omega⟩

theorem suffix_two_zeros_iff (n : Nat) :
    (['0','0'] <:+ decCharsAux n) ↔ (n ≠ 0 ∧ n % 100 = 0) := by
  unfold decCharsAux
  rw [suffix_reverse_iff]
  exact zeros_prefix_two n

theorem suffix_three_zeros_iff (n : Nat) :
    (['0','0','0'] <:+ decCharsAux n) ↔ (n ≠ 0 ∧ n % 1000 = 0) := by
  unfold decCharsAux
  rw [suffix_reverse_iff]
  exact zeros_prefix_three n

/-- A positive number's decimal representation starts with a nonzero digit. -/
theorem decCharsAux_head (n : Nat) (hn : n ≠ 0) :
    ∃ d t, d < 10 ∧ d ≠ 0 ∧ decCharsAux n = dchar d :: t := by
  have hne : Nat.digits 10 n ≠ [] := Nat.digits_ne_nil_iff_ne_zero.mpr hn
  have hrev : (Nat.digits 10 n).reverse ≠ [] := by simpa using hne
  obtain ⟨d0, t0, ht⟩ := List.exists_cons_of_ne_nil hrev
  have hd0mem : d0 ∈ Nat.digits 10 n := by
    have : d0 ∈ (Nat.digits 10 n).reverse := by
      rw [ht]
      exact List.mem_cons_self _ _
    simpa using this
  have hd0lt : d0 < 10 := Nat.digits_lt_base (by norm_num) hd0mem
  have hd0ne : d0 ≠ 0 := by
    have hlast := Nat.getLast_digit_ne_zero 10 hn
    have h1 : (Nat.digits 10 n).getLast?  = some d0 := by
      rw [← List.head?_reverse, ht]
      rfl
    rw [List.getLast?_eq_getLast _ hne] at h1
    have := Option.some.inj h1
    rw [← this]
    exact hlast
  refine ⟨d0, t0.map dchar, hd0lt, hd0ne, ?_⟩
  unfold decCharsAux revDec
  rw [decDigits_eq, ← List.map_reverse, ht, List.map_cons]

/-- A positive number's decimal representation is never a suffix of a string
of zeros. -/
theorem decCharsAux_not_suffix_zeros {n : Nat} (hn : n ≠ 0) {z : List Char}
    (hz : ∀ c ∈ z, c = '0') (h : decCharsAux n <:+ z) : False := by
  obtain ⟨d, t, hd10, hd0, hct⟩ := decCharsAux_head n hn
  obtain ⟨w, hw⟩ := h
  have hmem : dchar d ∈ z := by
    rw [← hw, hct]
    simp
  exact hd0 ((dchar_eq_zero_iff d hd10).mp (hz _ hmem))

theorem decChars_pos {n : Nat} (hn : n ≠ 0) : decChars n = decCharsAux n :=
  if_neg hn

/-- A chunk artifact name ends in `00.zip` exactly when its range ends at a
multiple of 100. -/
theorem chunkName_ends00_iff {b : Bool} {x y : Nat} (hx : x % 100 = 1)
    (hxy : x ≤ y) :
    pyEndsWith (chunkName b x y) ("00.zip".toList) = true ↔ y % 100 = 0 := by
  have hx0 : x ≠ 0 := by omega
  have hy0 : y ≠ 0 := by omega
  unfold pyEndsWith chunkName
  rw [List.isSuffixOf_iff_suffix,
    show ("00.zip".toList : List Char) = ['0','0'] ++ ".zip".toList from rfl,
    suffix_append_cancel]
  by_cases hxy' : x = y
  · rw [if_pos hxy', List.append_nil]
    constructor
    · intro h
      rcases suffix_spill h with h2 | h2
      · rw [decChars_pos hx0] at h2
        have := (suffix_two_zeros_iff x).mp h2
        omega
      · rw [decChars_pos hx0] at h2
        exact (decCharsAux_not_suffix_zeros hx0 (by decide) h2).elim
    · intro h
      exfalso
      omega
  · rw [if_neg hxy',
      show ('-' :: decChars y : List Char) = ['-'] ++ decChars y from rfl,
      ← List.append_assoc]
    constructor
    · intro h
      rcases suffix_spill h with h2 | h2
      · rw [decChars_pos hy0] at h2
        exact ((suffix_two_zeros_iff y).mp h2).2
      · rw [decChars_pos hy0] at h2
        exact (decCharsAux_not_suffix_zeros hy0 (by decide) h2).elim
    · intro h
      have h2 : ['0','0'] <:+ decChars y := by
        rw [decChars_pos hy0]
        exact (suffix_two_zeros_iff y).mpr ⟨hy0, h⟩
      exact h2.trans (List.suffix_append _ _)

/-- A chunk artifact name ends in `000.zip` exactly when its range ends at a
multiple of 1000. -/
theorem chunkName_ends000_iff {b : Bool} {x y : Nat} (hx : x % 100 = 1)
    (hxy : x ≤ y) :
    pyEndsWith (chunkName b x y) ("000.zip".toList) = true ↔ y % 1000 = 0 := by
  have hx0 : x ≠ 0 := by omega
  have hy0 : y ≠ 0 := by omega
  unfold pyEndsWith chunkName
  rw [List.isSuffixOf_iff_suffix,
    show ("000.zip".toList : List Char) = ['0','0','0'] ++ ".zip".toList from rfl,
    suffix_append_cancel]
  by_cases hxy' : x = y
  · rw [if_pos hxy', List.append_nil]
    constructor
    · intro h
      rcases suffix_spill h with h2 | h2
      · rw [decChars_pos hx0] at h2
        have := (suffix_three_zeros_iff x).mp h2
        omega
      · rw [decChars_pos hx0] at h2
        exact (decCharsAux_not_suffix_zeros hx0 (by decide) h2).elim
    · intro h
      exfalso
      omega
  · rw [if_neg hxy',
      show ('-' :: decChars y : List Char) = ['-'] ++ decChars y from rfl,
      ← List.append_assoc]
    constructor
    · intro h
      rcases suffix_spill h with h2 | h2
      · rw [decChars_pos hy0] at h2
        exact ((suffix_three_zeros_iff y).mp h2).2
      · rw [decChars_pos hy0] at h2
        exact (decCharsAux_not_suffix_zeros hy0 (by decide) h2).elim
    · intro h
      have h2 : ['0','0','0'] <:+ decChars y := by
        rw [decChars_pos hy0]
        exact (suffix_three_zeros_iff y).mpr ⟨hy0, h⟩
      exact h2.trans (List.suffix_append _ _)

/-- Backward artifact names start with `B`, forward names with a digit:
the two directions can never collide. -/
theorem chunkName_direction_ne (x y x' y' : Nat) :
    chunkName true x y ≠ chunkName false x' y' := by
  intro he
  have h1 : (chunkName true x y).head? = some 'B' := rfl
  have h2 : ∃ d, d < 10 ∧ (chunkName false x' y').head? = some (dchar d) := by
    by_cases hx' : x' = 0
    · subst hx'
      exact ⟨0, by norm_num, rfl⟩
    · obtain ⟨d, t, hd10, -, hct⟩ := decCharsAux_head x' hx'
      refine ⟨d, hd10, ?_⟩
      unfold chunkName
      rw [decChars_pos hx', hct]
      rfl
  obtain ⟨d, hd10, h2⟩ := h2
  rw [he, h2] at h1
  exact dchar_ne_B d hd10 (Option.some.inj h1)

/-- C4 (amended): for every total result count, the Backward pass requests
ranges exactly covering `[1, min (N − 1000) 1000]` in chunks of at most 100;
chunk `k` is the *relative* range `(100k + 1, min (100k + 100) (N − 1000))`,
stored under a `B`-prefixed name; and a Backward artifact name can never
collide with a Forward one, because Backward names start with `B` and Forward
names with a digit. -/
theorem claim_C4_backward_extension (N : Nat) :
    (∀ p, (∃ r ∈ backwardRanges N, r.1 ≤ p ∧ p ≤ r.2) ↔
      (1 ≤ p ∧ p ≤ min (N - 1000) 1000)) ∧
    (∀ r ∈ backwardRanges N, r.1 ≤ r.2 ∧ r.2 - r.1 < 100) ∧
    (∀ k : Nat, (backwardRanges N)[k]? =
      if k < (min (N - 1000) 1000 + 99) / 100
      then some (k * 100 + 1, min (k * 100 + 100) (N - 1000)) else none) ∧
    (∀ x y x' y' : Nat, chunkName true x y ≠ chunkName false x' y') := by
  refine ⟨?_, ?_, ?_, chunkName_direction_ne⟩
  · intro p
    rw [backwardRanges_eq_forward]
    exact forwardRanges_cover (N - 1000) p
  · rw [backwardRanges_eq_forward, forwardRanges_eq]
    intro r hr
    simp only [List.mem_map, List.mem_range] at hr
    obtain ⟨k, hk, rfl⟩ := hr
    simp only
    omega
  · intro k
    rw [backwardRanges_eq_forward, forwardRanges_eq, List.getElem?_map]
    by_cases hk : k < (min (N - 1000) 1000 + 99) / 100
    · rw [List.getElem?_range hk, if_pos hk]
      rfl
    · rw [if_neg hk, List.getElem?_eq_none, Option.map_none']
      simpa using Nat.le_of_not_lt hk

/-! ## Claim C5 -/

theorem chunkNameOf_ends00_iff {c : Chunk} (hx : c.x % 100 = 1) (hxy : c.x ≤ c.y) :
    pyEndsWith (chunkNameOf c) ("00.zip".toList) = true ↔ c.y % 100 = 0 :=
  chunkName_ends00_iff hx hxy

theorem chunkNameOf_ends000_iff {c : Chunk} (hx : c.x % 100 = 1) (hxy : c.x ≤ c.y) :
    pyEndsWith (chunkNameOf c) ("000.zip".toList) = true ↔ c.y % 1000 = 0 :=
  chunkName_ends000_iff hx hxy

theorem any_not_ends00_iff (arts : List Chunk) (h : ∀ c ∈ arts, ChunkInv c) :
    ((arts.map chunkNameOf).any (fun a => ! pyEndsWith a ("00.zip".toList)) = true)
      ↔ ∃ c ∈ arts, c.y + 1 - c.x ≠ 100 := by
  rw [List.any_eq_true]
  constructor
  · rintro ⟨a, ha, hba⟩
    rw [List.mem_map] at ha
    obtain ⟨c, hc, rfl⟩ := ha
    obtain ⟨hx, hxy, hw, hy1000⟩ := h c hc
    rw [Bool.not_eq_true'] at hba
    refine ⟨c, hc, ?_⟩
    have hne : ¬ (c.y % 100 = 0) := by
      intro h100
      rw [(chunkNameOf_ends00_iff hx hxy).mpr h100] at hba
      exact Bool.noConfusion hba
    omega
  · rintro ⟨c, hc, hcw⟩
    obtain ⟨hx, hxy, hw, hy1000⟩ := h c hc
    refine ⟨chunkNameOf c, List.mem_map_of_mem _ hc, ?_⟩
    rw [Bool.not_eq_true']
    have hy : ¬ (c.y % 100 = 0) := by omega
    cases hpe : pyEndsWith (chunkNameOf c) ("00.zip".toList) with
    | false => rfl
    | true => exact absurd ((chunkNameOf_ends00_iff hx hxy).mp hpe) hy

theorem any_ends000_iff (arts : List Chunk) (h : ∀ c ∈ arts, ChunkInv c) :
    ((arts.map chunkNameOf).any (fun a => pyEndsWith a ("000.zip".toList)) = true)
      ↔ ∃ c ∈ arts, c.y = 1000 := by
  rw [List.any_eq_true]
  constructor
  · rintro ⟨a, ha, hba⟩
    rw [List.mem_map] at ha
    obtain ⟨c, hc, rfl⟩ := ha
    obtain ⟨hx, hxy, hw, hy1000⟩ := h c hc
    have := (chunkNameOf_ends000_iff hx hxy).mp hba
    exact ⟨c, hc, by omega⟩
  · rintro ⟨c, hc, hcy⟩
    obtain ⟨hx, hxy, hw, hy1000⟩ := h c hc
    exact ⟨chunkNameOf c, List.mem_map_of_mem _ hc,
      (chunkNameOf_ends000_iff hx hxy).mpr (by omega)⟩

/-- C5: for artifacts of the shape `download` produces, the resume pre-check
classifies a window as Complete iff some artifact's range width differs from
100; as CappedForward iff all widths are 100 and some artifact ends at index
1000; and as NeedsWork otherwise — with the spec's three concrete examples. -/
theorem claim_C5_resume_classification (arts : List Chunk)
    (h : ∀ c ∈ arts, ChunkInv c) :
    (classify (arts.map chunkNameOf) = .complete ↔
      ∃ c ∈ arts, c.y + 1 - c.x ≠ 100) ∧
    (classify (arts.map chunkNameOf) = .cappedForward ↔
      ((∀ c ∈ arts, c.y + 1 - c.x = 100) ∧ ∃ c ∈ arts, c.y = 1000)) ∧
    (classify (arts.map chunkNameOf) = .needsWork ↔
      ((∀ c ∈ arts, c.y + 1 - c.x = 100) ∧ ∀ c ∈ arts, c.y ≠ 1000)) ∧
    classify [chunkName false 1 100] = .needsWork ∧
    classify [chunkName false 1 47] = .complete ∧
    classify [chunkName false 901 1000] = .cappedForward := by
  have hAiff := any_not_ends00_iff arts h
  have hBiff := any_ends000_iff arts h
  have hnotP : ((arts.map chunkNameOf).any
      (fun a => ! pyEndsWith a ("00.zip".toList)) = false) →
      (∀ c ∈ arts, c.y + 1 - c.x = 100) := by
    intro hA c hc
    by_contra hne
    have hcon := hAiff.mpr ⟨c, hc, hne⟩
    rw [hA] at hcon
    exact Bool.noConfusion hcon
  refine ⟨?_, ?_, ?_, by decide, by decide, by decide⟩
  · cases hA : (arts.map chunkNameOf).any (fun a => ! pyEndsWith a ("00.zip".toList)) with
    | true =>
      simp only [classify, hA, if_true]
      simp only [true_iff]
      rw [hA] at hAiff
      exact hAiff.mp rfl
    | false =>
      simp only [classify, hA, Bool.false_eq_true, if_false]
      rw [hA] at hAiff
      simp only [Bool.false_eq_true, false_iff] at hAiff
      cases hB : (arts.map chunkNameOf).any (fun a => pyEndsWith a ("000.zip".toList)) with
      | true => simp only [hB, if_true]; simpa using hAiff
      | false => simp only [hB, Bool.false_eq_true, if_false]; simpa using hAiff
  · cases hA : (arts.map chunkNameOf).any (fun a => ! pyEndsWith a ("00.zip".toList)) with
    | true =>
      simp only [classify, hA, if_true]
      rw [hA] at hAiff
      have hP := hAiff.mp rfl
      obtain ⟨c, hc, hcw⟩ := hP
      constructor
      · intro hcon
        exact absurd hcon (by simp)
      · rintro ⟨hall, -⟩
        exact absurd (hall c hc) hcw
    | false =>
      simp only [classify, hA, Bool.false_eq_true, if_false]
      have hall := hnotP hA
      cases hB : (arts.map chunkNameOf).any (fun a => pyEndsWith a ("000.zip".toList)) with
      | true =>
        simp only [hB, if_true, true_iff]
        rw [hB] at hBiff
        exact ⟨hall, hBiff.mp rfl⟩
      | false =>
        simp only [hB, Bool.false_eq_true, if_false]
        rw [hB] at hBiff
        simp only [Bool.false_eq_true, false_iff] at hBiff
        constructor
        · intro hcon
          exact absurd hcon (by simp)
        · rintro ⟨-, hex⟩
          exact absurd hex hBiff
  · cases hA : (arts.map chunkNameOf).any (fun a => ! pyEndsWith a ("00.zip".toList)) with
    | true =>
      simp only [classify, hA, if_true]
      rw [hA] at hAiff
      obtain ⟨c, hc, hcw⟩ := hAiff.mp rfl
      constructor
      · intro hcon
        exact absurd hcon (by simp)
      · rintro ⟨hall, -⟩
        exact absurd (hall c hc) hcw
    | false =>
      simp only [classify, hA, Bool.false_eq_true, if_false]
      have hall := hnotP hA
      cases hB : (arts.map chunkNameOf).any (fun a => pyEndsWith a ("000.zip".toList)) with
      | true =>
        simp only [hB, if_true]
        rw [hB] at hBiff
        obtain ⟨c, hc, hcy⟩ := hBiff.mp rfl
        constructor
        · intro hcon
          exact absurd hcon (by simp)
        · rintro ⟨-, hnone⟩
          exact absurd hcy (hnone c hc)
      | false =>
        simp only [hB, Bool.false_eq_true, if_false, true_iff]
        rw [hB] at hBiff
        simp only [Bool.false_eq_true, false_iff] at hBiff
        refine ⟨hall, ?_⟩
        intro c hc hcy
        exact hBiff ⟨c, hc, hcy⟩

/-- C5 (witness): the classification theorem at the one-artifact store
`901-1000.zip`. -/
theorem claim_C5_witness :
    (classify (sampleArts.map chunkNameOf) = .complete ↔
      ∃ c ∈ sampleArts, c.y + 1 - c.x ≠ 100) ∧
    (classify (sampleArts.map chunkNameOf) = .cappedForward ↔
      ((∀ c ∈ sampleArts, c.y + 1 - c.x = 100) ∧ ∃ c ∈ sampleArts, c.y = 1000)) ∧
    (classify (sampleArts.map chunkNameOf) = .needsWork ↔
      ((∀ c ∈ sampleArts, c.y + 1 - c.x = 100) ∧ ∀ c ∈ sampleArts, c.y ≠ 1000)) ∧
    classify [chunkName false 1 100] = .needsWork ∧
    classify [chunkName false 1 47] = .complete ∧
    classify [chunkName false 901 1000] = .cappedForward :=
  claim_C5_resume_classification sampleArts (by decide)

/-- C6 (witness): the coverage equivalence of the Forward plan at
`N = 2500`, `p = 950`, and the width bound at the first planned range. -/
theorem claim_C6_witness :
    ((∃ r ∈ forwardRanges 2500, r.1 ≤ 950 ∧ 950 ≤ r.2) ↔
      (1 ≤ 950 ∧ 950 ≤ min 2500 1000)) ∧
    ((1, 100) ∈ forwardRanges 2500 → (1, 100).1 ≤ (1, 100).2 ∧
      (1, 100).2 - (1, 100).1 < 100) :=
  ⟨(claim_C6_forward_ranges_cover 2500).1 950,
    (claim_C6_forward_ranges_cover 2500).2.2.1 (1, 100)⟩

/-- C4 (witness): the amended Backward theorem at `N = 2500`: coverage at
position 950, the label of chunk 0, and a concrete non-collision. -/
theorem claim_C4_witness :
    ((∃ r ∈ backwardRanges 2500, r.1 ≤ 950 ∧ 950 ≤ r.2) ↔
      (1 ≤ 950 ∧ 950 ≤ min (2500 - 1000) 1000)) ∧
    ((backwardRanges 2500)[0]? =
      if 0 < (min (2500 - 1000) 1000 + 99) / 100
      then some (0 * 100 + 1, min (0 * 100 + 100) (2500 - 1000)) else none) ∧
    chunkName true 1 100 ≠ chunkName false 1 100 :=
  ⟨(claim_C4_backward_extension 2500).1 950,
    (claim_C4_backward_extension 2500).2.2.1 0,
    (claim_C4_backward_extension 2500).2.2.2 1 100 1 100⟩

/-- C7 (witness): the amended planner theorem instantiated at
`start = 2020, end = 2021` and the window `(3, 2020)`. -/
theorem claim_C7_witness :
    ((3, 2020) ∈ months_and_years 2020 2021 ↔
      1 ≤ 3 ∧ 3 ≤ 12 ∧ 2020 ≤ 2020 ∧ 2020 < 2021) ∧
    months_and_years 2020 2020 = [] :=
  ⟨(claim_C7_window_planner 2020 2021).1 3 2020,
    (claim_C7_window_planner 2020 2020).2.2.2.2.1⟩

end NexisClicker
